import Mathlib

/-!
Shallow embedding of the multi-agent labour scheduling repository.

The core constraint model is `ortools_scheduler` in `labour_scheduler.py`:
one Boolean decision variable per (employee, day, shift), availability
elimination, coverage minimums, hour bounds in minutes, and a sliding-window
consecutive-day limit.  `labour_scheduler_poc.py` contributes a coarser
integer-hours fallback model, `labour_scheduler_simple.py` contributes the
keyword-based `has_conflicts` check, and `data_gen.py` / the generator in
`labour_scheduler.py` contribute the synthetic employee data.
Times of day are minutes after midnight; all durations are minutes.
-/

namespace LabourSched

/-- The three shift names of `ortools_scheduler` (`morning`, `afternoon`,
`evening`). -/
inductive ShiftName where
  | morning
  | afternoon
  | evening
deriving DecidableEq, Repr

open ShiftName

/-- The shift list in source order (iteration order of the `shifts` dict). -/
def shiftNames : List ShiftName := [morning, afternoon, evening]

/-- Shift start times: 9:00, 14:00, 19:00, in minutes after midnight. -/
def shiftStart : ShiftName → Nat
  | morning => 9 * 60
  | afternoon => 14 * 60
  | evening => 19 * 60

/-- Shift end times: 14:00, 19:00, 22:00, in minutes after midnight. -/
def shiftEnd : ShiftName → Nat
  | morning => 14 * 60
  | afternoon => 19 * 60
  | evening => 22 * 60

/-- `shift_durations` from the source: 5h, 5h, 3h in minutes. -/
def shiftDuration : ShiftName → Nat
  | morning => 5 * 60
  | afternoon => 5 * 60
  | evening => 3 * 60

/-- An employee record as built by `generate_employee_data`:
id, role, weekly hour bounds, per-day availability (day 0 = Monday …
day 6 = Sunday; `none` means unavailable that day, `some (a, b)` means
available from minute `a` to minute `b`), and preferred shift names. -/
structure Employee where
  id : String
  role : String
  min_hours : Nat
  max_hours : Nat
  availability : List (Option (Nat × Nat))
  preferred_shifts : List ShiftName
deriving DecidableEq, Repr

/-- A candidate assignment: the value of the Boolean decision variable
keyed, as in the source `shifts_dict`, by (employee id, day index, shift). -/
def Assignment : Type := String → Nat → ShiftName → Bool

/-- The availability test of `ortools_scheduler` (lines 143–151): the slot is
available iff the day's window exists and contains the shift interval. -/
def availableB (e : Employee) (d : Nat) (s : ShiftName) : Bool :=
  match e.availability.getD d none with
  | none => false
  | some (a, b) => decide (a ≤ shiftStart s) && decide (shiftEnd s ≤ b)

/-- The availability constraints (lines 156–157): a variable for an
unavailable slot is forced to 0. -/
def availOK (emps : List Employee) (x : Assignment) : Bool :=
  emps.all fun e =>
    (List.range 7).all fun d =>
      shiftNames.all fun s => availableB e d s || !(x e.id d s)

/-- The per-(day, shift) headcount minimum (lines 161–163): 4 for morning
and afternoon, 2 for evening, plus 1 on Saturday (day 5) and Sunday (day 6). -/
def minStaff (d : Nat) (s : ShiftName) : Nat :=
  (if s = morning ∨ s = afternoon then 4 else 2) + (if d = 5 ∨ d = 6 then 1 else 0)

/-- Number of assigned workers on a (day, shift): `sum(staff_on_shift)`. -/
def headcount (emps : List Employee) (x : Assignment) (d : Nat) (s : ShiftName) : Nat :=
  emps.countP fun e => x e.id d s

/-- The manager sublist of an employee table. -/
def managers (emps : List Employee) : List Employee :=
  emps.filter fun e => e.role == "manager"

/-- Number of assigned managers on a (day, shift): `sum(managers_on_shift)`. -/
def managersOn (emps : List Employee) (x : Assignment) (d : Nat) (s : ShiftName) : Nat :=
  (managers emps).countP fun e => x e.id d s

/-- The coverage constraints (lines 159–175): at least 2 managers and at
least `minStaff` workers on every (day, shift). -/
def coverageOK (emps : List Employee) (x : Assignment) : Bool :=
  (List.range 7).all fun d =>
    shiftNames.all fun s =>
      decide (2 ≤ managersOn emps x d s) && decide (minStaff d s ≤ headcount emps x d s)

/-- `total_minutes` of one employee (lines 178–184): the sum over all
(day, shift) slots of variable × duration. -/
def totalMinutes (e : Employee) (x : Assignment) : Nat :=
  ((List.range 7).map fun d =>
    (shiftNames.map fun s => if x e.id d s then shiftDuration s else 0).sum).sum

/-- The hour-bound constraints (lines 186–189): minutes between
`min_hours * 60` and `max_hours * 60` for every employee. -/
def hoursOK (emps : List Employee) (x : Assignment) : Bool :=
  emps.all fun e =>
    decide (e.min_hours * 60 ≤ totalMinutes e x) &&
      decide (totalMinutes e x ≤ e.max_hours * 60)

/-- The `day_worked` indicator (lines 195–199): in a satisfying assignment
`AddMaxEquality` makes it the logical OR of the day's shift variables. -/
def dayWorked (e : Employee) (x : Assignment) (d : Nat) : Bool :=
  shiftNames.any fun s => x e.id d s

/-- Number of worked days in the 6-day window starting at `start`. -/
def workedInWindow (e : Employee) (x : Assignment) (start : Nat) : Nat :=
  (List.range 6).countP fun i => dayWorked e x (start + i)

/-- The consecutive-day constraints (lines 191–201): for each employee and
each window start in `range(len(days) - 5)`, at most 5 of the 6 days of the
window are worked. -/
def consecOK (emps : List Employee) (x : Assignment) : Bool :=
  emps.all fun e =>
    (List.range (7 - 5)).all fun start => decide (workedInWindow e x start ≤ 5)

/-- An assignment satisfies the constraint system built by
`ortools_scheduler` iff all four constraint families hold. -/
def satisfies (emps : List Employee) (x : Assignment) : Bool :=
  availOK emps x && coverageOK emps x && hoursOK emps x && consecOK emps x

end LabourSched

namespace LabourSched

open ShiftName

/-- A full-week availability window 8:00–22:00, covering every shift. -/
def fullWeek : List (Option (Nat × Nat)) := List.replicate 7 (some (8 * 60, 22 * 60))

/-- An availability with a morning-only window Monday–Thursday, Friday
unavailable, and full weekend windows. -/
def s5Avail : List (Option (Nat × Nat)) :=
  [some (540, 840), some (540, 840), some (540, 840), some (540, 840), none,
   some (480, 1320), some (480, 1320)]

def eM1 : Employee := ⟨"M1", "manager", 10, 100, fullWeek, [morning]⟩
def eM2 : Employee := ⟨"M2", "manager", 10, 100, fullWeek, [morning]⟩
def eM3 : Employee := ⟨"M3", "manager", 10, 100, fullWeek, [morning]⟩
def eS1 : Employee := ⟨"S1", "staff", 10, 100, fullWeek, [morning]⟩
def eS2 : Employee := ⟨"S2", "staff", 10, 100, fullWeek, [morning]⟩
def eS3 : Employee := ⟨"S3", "staff", 10, 100, fullWeek, [morning]⟩
def eS4 : Employee := ⟨"S4", "staff", 10, 100, fullWeek, [morning]⟩
def eS5 : Employee := ⟨"S5", "staff", 10, 100, s5Avail, [morning]⟩

/-- A small concrete roster on which the constraint system is satisfiable. -/
def goodEmps : List Employee := [eM1, eM2, eM3, eS1, eS2, eS3, eS4, eS5]

/-- A concrete satisfying assignment for `goodEmps`: managers rotate so that
two are on duty on all shifts of every day while nobody works more than five
days of either 6-day window; staff fill the remaining coverage minimums. -/
def goodX : Assignment := fun id d s =>
  if id = "M1" then decide (d ≤ 4)
  else if id = "M2" then decide (2 ≤ d) && decide (d ≤ 6)
  else if id = "M3" then decide (d = 0 ∨ d = 1 ∨ d = 5 ∨ d = 6)
  else if id = "S1" ∨ id = "S2" then decide (d ≤ 4) && decide (s ≠ evening)
  else if id = "S3" then decide (d = 5 ∨ d = 6)
  else if id = "S4" ∨ id = "S5" then decide (d = 5 ∨ d = 6) && decide (s ≠ evening)
  else false

lemma mem_shiftNames (s : ShiftName) : s ∈ shiftNames := by
  cases s <;> simp [shiftNames]

lemma satisfies_split {emps : List Employee} {x : Assignment}
    (h : satisfies emps x = true) :
    availOK emps x = true ∧ coverageOK emps x = true ∧ hoursOK emps x = true ∧
      consecOK emps x = true := by
  simpa [satisfies, Bool.and_eq_true, and_assoc] using h

lemma coverage_of {emps : List Employee} {x : Assignment}
    (h : coverageOK emps x = true) {d : Nat} (hd : d < 7) (s : ShiftName) :
    2 ≤ managersOn emps x d s ∧ minStaff d s ≤ headcount emps x d s := by
  rw [coverageOK, List.all_eq_true] at h
  have h1 := h d (List.mem_range.mpr hd)
  rw [List.all_eq_true] at h1
  have h2 := h1 s (mem_shiftNames s)
  simpa [Bool.and_eq_true] using h2

lemma hours_of {emps : List Employee} {x : Assignment}
    (h : hoursOK emps x = true) {e : Employee} (he : e ∈ emps) :
    e.min_hours * 60 ≤ totalMinutes e x ∧ totalMinutes e x ≤ e.max_hours * 60 := by
  rw [hoursOK, List.all_eq_true] at h
  simpa [Bool.and_eq_true] using h e he

lemma avail_of {emps : List Employee} {x : Assignment}
    (h : availOK emps x = true) {e : Employee} (he : e ∈ emps) {d : Nat}
    (hd : d < 7) (s : ShiftName) (hna : availableB e d s = false) :
    x e.id d s = false := by
  rw [availOK, List.all_eq_true] at h
  have h1 := h e he
  rw [List.all_eq_true] at h1
  have h2 := h1 d (List.mem_range.mpr hd)
  rw [List.all_eq_true] at h2
  have h3 := h2 s (mem_shiftNames s)
  rw [hna] at h3
  simpa using h3

lemma consec_of {emps : List Employee} {x : Assignment}
    (h : consecOK emps x = true) {e : Employee} (he : e ∈ emps) {start : Nat}
    (hs : start < 2) : workedInWindow e x start ≤ 5 := by
  rw [consecOK, List.all_eq_true] at h
  have h1 := h e he
  rw [List.all_eq_true] at h1
  have h2 := h1 start (List.mem_range.mpr hs)
  simpa using h2

end LabourSched

namespace LabourSched

open ShiftName

lemma single_day_le_total {e : Employee} {x : Assignment} {d : Nat} (hd : d < 7) :
    (shiftNames.map fun s => if x e.id d s then shiftDuration s else 0).sum ≤
      totalMinutes e x := by
  have hmem : (shiftNames.map fun s => if x e.id d s then shiftDuration s else 0).sum ∈
      (List.range 7).map fun d' =>
        (shiftNames.map fun s => if x e.id d' s then shiftDuration s else 0).sum :=
    List.mem_map_of_mem _ (List.mem_range.mpr hd)
  exact List.single_le_sum (fun _ _ => Nat.zero_le _) _ hmem

lemma two_shifts_le_day {e : Employee} {x : Assignment} {d : Nat}
    {s1 s2 : ShiftName} (hne : s1 ≠ s2) (h1 : x e.id d s1 = true)
    (h2 : x e.id d s2 = true) :
    shiftDuration s1 + shiftDuration s2 ≤
      (shiftNames.map fun s => if x e.id d s then shiftDuration s else 0).sum := by
  cases s1 <;> cases s2 <;>
    simp_all [shiftNames, shiftDuration] <;> omega

/-- Claim C1: in any assignment satisfying the built constraint system, every
(day, shift) pair has at least its required minimum headcount assigned, and at
least 2 assigned workers with the manager role. -/
theorem c1_coverage_minimums (emps : List Employee) (x : Assignment) (d : Nat)
    (s : ShiftName) (hd : d < 7) (hsat : satisfies emps x = true) :
    2 ≤ managersOn emps x d s ∧ minStaff d s ≤ headcount emps x d s :=
  coverage_of (satisfies_split hsat).2.1 hd s

theorem c1_coverage_minimums_witness :
    2 ≤ managersOn goodEmps goodX 0 morning ∧
      minStaff 0 morning ≤ headcount goodEmps goodX 0 morning :=
  c1_coverage_minimums goodEmps goodX 0 morning (by decide) (by decide)

/-- Claim C2: in any assignment satisfying the built constraint system, every
worker's total of assignment variable × shift duration lies within
[min_hours × 60, max_hours × 60]; consequently a worker is never assigned, on
one day, two distinct shifts whose combined duration exceeds the worker's
maximum minutes — in particular a max_hours = 8 worker can never hold two
shifts totalling more than 480 minutes. -/
theorem c2_hour_bounds (emps : List Employee) (x : Assignment) (e : Employee)
    (he : e ∈ emps) (hsat : satisfies emps x = true) :
    (e.min_hours * 60 ≤ totalMinutes e x ∧ totalMinutes e x ≤ e.max_hours * 60) ∧
      ∀ d < 7, ∀ s1 s2 : ShiftName, s1 ≠ s2 →
        e.max_hours * 60 < shiftDuration s1 + shiftDuration s2 →
        ¬(x e.id d s1 = true ∧ x e.id d s2 = true) := by
  have hb := hours_of (satisfies_split hsat).2.2.1 he
  refine ⟨hb, fun d hd s1 s2 hne hbig hboth => ?_⟩
  have hday := two_shifts_le_day hne hboth.1 hboth.2
  have htot := single_day_le_total (e := e) (x := x) hd
  omega

theorem c2_hour_bounds_witness :
    (eM1.min_hours * 60 ≤ totalMinutes eM1 goodX ∧
      totalMinutes eM1 goodX ≤ eM1.max_hours * 60) ∧
      ∀ d < 7, ∀ s1 s2 : ShiftName, s1 ≠ s2 →
        eM1.max_hours * 60 < shiftDuration s1 + shiftDuration s2 →
        ¬(goodX eM1.id d s1 = true ∧ goodX eM1.id d s2 = true) :=
  c2_hour_bounds goodEmps goodX eM1 (by decide) (by decide)

/-- Claim C3: for any (worker, day, shift) whose shift interval is not fully
contained in the worker's availability window for that day (including days
marked unavailable), the built constraint system forces the decision variable
to 0, so no satisfying assignment staffs a worker outside their
availability. -/
theorem c3_availability_hard (emps : List Employee) (x : Assignment)
    (e : Employee) (d : Nat) (s : ShiftName) (hsat : satisfies emps x = true)
    (he : e ∈ emps) (hd : d < 7) (hna : availableB e d s = false) :
    x e.id d s = false :=
  avail_of (satisfies_split hsat).1 he hd s hna

theorem c3_availability_hard_witness :
    availableB eS5 0 afternoon = false ∧ goodX eS5.id 0 afternoon = false :=
  ⟨by decide,
    c3_availability_hard goodEmps goodX eS5 0 afternoon (by decide) (by decide)
      (by decide) (by decide)⟩

/-- Claim C4: in any assignment satisfying the built constraint system, every
worker works at most 5 days within each of the sliding 6-day windows of the
7-day horizon (a day counts as worked when the OR of its shift variables is
1), and the builder's windows (starts in `range(7 - 5)`) cover every 6-day
window of the horizon. -/
theorem c4_consecutive_days (emps : List Employee) (x : Assignment)
    (e : Employee) (start : Nat) (hsat : satisfies emps x = true)
    (he : e ∈ emps) (hw : start + 6 ≤ 7) : workedInWindow e x start ≤ 5 :=
  consec_of (satisfies_split hsat).2.2.2 he (by omega)

theorem c4_consecutive_days_witness : workedInWindow eM1 goodX 0 ≤ 5 :=
  c4_consecutive_days goodEmps goodX eM1 0 (by decide) (by decide) (by omega)

end LabourSched

namespace LabourSched

open ShiftName

/-- A full-time employee record from `generate_employee_data` (lines 34-48):
`FT{i+1}`, manager role for the first two, 38-40 weekly hours; the random
draws of `generate_availability` / `generate_preferred_shifts` are the
parameters `avail` and `prefs`. -/
def mkFT (avail : Nat → List (Option (Nat × Nat))) (prefs : Nat → List ShiftName)
    (i : Nat) : Employee :=
  ⟨"FT" ++ toString (i + 1), if i < 2 then "manager" else "staff", 38, 40,
    avail i, prefs i⟩

/-- A part-time employee record from `generate_employee_data` (lines 50-63):
`PT{i+1}`, staff role, 10-30 weekly hours. -/
def mkPT (avail : Nat → List (Option (Nat × Nat))) (prefs : Nat → List ShiftName)
    (i : Nat) : Employee :=
  ⟨"PT" ++ toString (i + 1), "staff", 10, 30, avail i, prefs i⟩

/-- `generate_employee_data` (lines 32-65): 5 full-timers then 10 part-timers,
parametrised by the random availability and preference draws. -/
def generate_employee_data (aFT : Nat → List (Option (Nat × Nat)))
    (pFT : Nat → List ShiftName) (aPT : Nat → List (Option (Nat × Nat)))
    (pPT : Nat → List ShiftName) : List Employee :=
  (List.range 5).map (mkFT aFT pFT) ++ (List.range 10).map (mkPT aPT pPT)

lemma managers_generate (aFT : Nat → List (Option (Nat × Nat)))
    (pFT : Nat → List ShiftName) (aPT : Nat → List (Option (Nat × Nat)))
    (pPT : Nat → List ShiftName) :
    managers (generate_employee_data aFT pFT aPT pPT) =
      [mkFT aFT pFT 0, mkFT aFT pFT 1] := rfl

lemma countP_pair {α : Type} {p : α → Bool} {a b : α}
    (h : 2 ≤ List.countP p [a, b]) : p a = true ∧ p b = true := by
  by_cases ha : p a = true <;> by_cases hb : p b = true <;>
    simp [List.countP_cons, ha, hb] at h ⊢

/-- Claim C5: every employee table produced by `generate_employee_data` —
whatever the random draws — has exactly the two full-time managers `FT1`,
`FT2` with `max_hours = 40`, and the constraint system `ortools_scheduler`
builds over it is unsatisfiable: manager coverage would force both onto all
21 shifts (5460 minutes), above their 2400-minute cap, so the solver can only
report the infeasible outcome. -/
theorem c5_generated_data_infeasible (aFT : Nat → List (Option (Nat × Nat)))
    (pFT : Nat → List ShiftName) (aPT : Nat → List (Option (Nat × Nat)))
    (pPT : Nat → List ShiftName) :
    (managers (generate_employee_data aFT pFT aPT pPT)).length = 2 ∧
      (∀ m ∈ managers (generate_employee_data aFT pFT aPT pPT),
        m.role = "manager" ∧ m.max_hours = 40) ∧
      ∀ x : Assignment, satisfies (generate_employee_data aFT pFT aPT pPT) x = false := by
  refine ⟨by rw [managers_generate]; rfl, ?_, ?_⟩
  · intro m hm
    rw [managers_generate] at hm
    simp only [List.mem_cons, List.not_mem_nil, or_false] at hm
    rcases hm with rfl | rfl
    · exact ⟨rfl, rfl⟩
    · exact ⟨rfl, rfl⟩
  · intro x
    rcases Bool.eq_false_or_eq_true (satisfies (generate_employee_data aFT pFT aPT pPT) x)
      with h | h
    swap
    · exact h
    exfalso
    have hcov := (satisfies_split h).2.1
    have hx : ∀ d : Nat, d < 7 → ∀ s : ShiftName,
        x (mkFT aFT pFT 0).id d s = true := by
      intro d hd s
      have h2 := (coverage_of hcov hd s).1
      rw [managersOn, managers_generate] at h2
      exact (countP_pair h2).1
    have hmem : mkFT aFT pFT 0 ∈ generate_employee_data aFT pFT aPT pPT :=
      List.mem_append_left _ (List.mem_map_of_mem _ (by decide))
    have hub := (hours_of (satisfies_split h).2.2.1 hmem).2
    have hday : ∀ d : Nat, d < 7 →
        (shiftNames.map fun s => if x (mkFT aFT pFT 0).id d s then shiftDuration s
          else 0).sum = 780 := by
      intro d hd
      simp [shiftNames, shiftDuration, hx d hd]
    have htot : totalMinutes (mkFT aFT pFT 0) x = 5460 := by
      rw [totalMinutes, show List.range 7 = [0, 1, 2, 3, 4, 5, 6] from rfl]
      simp [hday]
    rw [htot] at hub
    simp [mkFT] at hub

end LabourSched

namespace LabourSched

open ShiftName

/-- Modelled from the spec: the Solver Engine outcome of §4.2 — the CP-SAT
`solver.Solve` call is an external library, absent from the sources; per the
spec it returns Optimal or Feasible (each carrying an assignment), Infeasible,
or TimedOut. -/
inductive SolverOutcome where
  | optimalSol (x : Assignment)
  | feasibleSol (x : Assignment)
  | infeasibleSol
  | timedOutSol

/-- Modelled from the spec: soundness of the external solver — an Optimal or
Feasible outcome carries an assignment satisfying every hard constraint. -/
def outcomeSound (emps : List Employee) : SolverOutcome → Prop
  | .optimalSol x => satisfies emps x = true
  | .feasibleSol x => satisfies emps x = true
  | _ => True

/-- The status-string selection of `ortools_scheduler` (lines 212-238):
`"optimal"` / `"feasible"` on a solved model, `"infeasible"` otherwise. -/
def resultStatus : SolverOutcome → String
  | .optimalSol _ => "optimal"
  | .feasibleSol _ => "feasible"
  | _ => "infeasible"

/-- Total available worker-minutes: the sum of the workers' upper hour
bounds, in minutes. -/
def totalMaxMinutes (emps : List Employee) : Nat :=
  (emps.map fun e => e.max_hours * 60).sum

/-- Total coverage-minimum minutes over the horizon: each (day, shift) needs
at least `minStaff d s` workers for `shiftDuration s` minutes. -/
def requiredMinutes : Nat :=
  ((List.range 7).map fun d =>
    (shiftNames.map fun s => shiftDuration s * minStaff d s).sum).sum

lemma sum_map_add {α : Type} (l : List α) (f g : α → Nat) :
    (l.map fun a => f a + g a).sum = (l.map f).sum + (l.map g).sum := by
  induction l with
  | nil => rfl
  | cons a l ih => simp [ih]; omega

lemma sum_total_eq (x : Assignment) (emps : List Employee) :
    (emps.map fun e => totalMinutes e x).sum =
      ((List.range 7).map fun d =>
        (shiftNames.map fun s => shiftDuration s * headcount emps x d s).sum).sum := by
  induction emps with
  | nil => simp [headcount, totalMinutes, List.countP_nil]
  | cons e l ih =>
    have key : ∀ d : Nat,
        (shiftNames.map fun s => shiftDuration s * headcount (e :: l) x d s).sum =
          (shiftNames.map fun s => if x e.id d s then shiftDuration s else 0).sum +
            (shiftNames.map fun s => shiftDuration s * headcount l x d s).sum := by
      intro d
      rw [← sum_map_add]
      refine congrArg List.sum (List.map_congr_left fun s _ => ?_)
      rw [headcount, headcount, List.countP_cons]
      by_cases hxs : x e.id d s = true <;> simp [hxs] <;> ring
    have h2 : ((List.range 7).map fun d =>
        (shiftNames.map fun s => shiftDuration s * headcount (e :: l) x d s).sum).sum =
        totalMinutes e x + ((List.range 7).map fun d =>
          (shiftNames.map fun s => shiftDuration s * headcount l x d s).sum).sum := by
      rw [totalMinutes, ← sum_map_add]
      exact congrArg List.sum (List.map_congr_left fun d _ => key d)
    rw [List.map_cons, List.sum_cons, ih, h2]

lemma shortfall_unsat (emps : List Employee)
    (hs : totalMaxMinutes emps < requiredMinutes) :
    ∀ x : Assignment, satisfies emps x = false := by
  intro x
  rcases Bool.eq_false_or_eq_true (satisfies emps x) with h | h
  swap
  · exact h
  exfalso
  have h1 : requiredMinutes ≤
      ((List.range 7).map fun d =>
        (shiftNames.map fun s => shiftDuration s * headcount emps x d s).sum).sum := by
    rw [requiredMinutes]
    apply List.sum_le_sum
    intro d hd
    apply List.sum_le_sum
    intro s _
    exact Nat.mul_le_mul_left _
      (coverage_of (satisfies_split h).2.1 (List.mem_range.mp hd) s).2
  have h2 : (emps.map fun e => totalMinutes e x).sum ≤ totalMaxMinutes emps := by
    apply List.sum_le_sum
    intro e he
    exact (hours_of (satisfies_split h).2.2.1 he).2
  rw [← sum_total_eq] at h1
  omega

/-- Claim C6: whenever the built constraint system has no satisfying
assignment — in particular whenever total available worker-minutes fall short
of the summed coverage-minimum minutes — a sound solver outcome cannot be
Optimal or Feasible, so the decode step reports the status "infeasible",
never a false "optimal". -/
theorem c6_infeasible_detection (emps : List Employee) (o : SolverOutcome)
    (hsound : outcomeSound emps o)
    (h : (∀ x : Assignment, satisfies emps x = false) ∨
      totalMaxMinutes emps < requiredMinutes) :
    resultStatus o = "infeasible" := by
  have hunsat : ∀ x : Assignment, satisfies emps x = false := by
    rcases h with h | h
    · exact h
    · exact shortfall_unsat emps h
  cases o with
  | optimalSol x =>
    exfalso
    have hx : satisfies emps x = true := hsound
    rw [hunsat x] at hx
    cases hx
  | feasibleSol x =>
    exfalso
    have hx : satisfies emps x = true := hsound
    rw [hunsat x] at hx
    cases hx
  | infeasibleSol => rfl
  | timedOutSol => rfl

/-- A one-worker roster: 600 available worker-minutes, far below the 20880
coverage-minimum minutes of the week. -/
def tinyEmps : List Employee := [⟨"W1", "staff", 0, 10, fullWeek, [morning]⟩]

theorem c6_infeasible_detection_witness :
    resultStatus SolverOutcome.infeasibleSol = "infeasible" :=
  c6_infeasible_detection tinyEmps SolverOutcome.infeasibleSol trivial
    (Or.inr (by decide))

end LabourSched

namespace LabourSched

open ShiftName

/-- Matches of one employee: the slots counted by the preference loop of
`ortools_scheduler` (lines 203-208) whose shift is among
`emp["preferred_shifts"]` and whose variable is set. -/
def matchedCount (e : Employee) (x : Assignment) : Nat :=
  ((List.range 7).map fun d =>
    (shiftNames.map fun s =>
      if s ∈ e.preferred_shifts then (if x e.id d s then 1 else 0) else 0).sum).sum

/-- `preference_score` (lines 203-210): the sum over every employee, day and
shift of the decision variable when the shift is preferred; this is the
objective value reported by the decode step (line 230). -/
def prefScore (emps : List Employee) (x : Assignment) : Nat :=
  (emps.map fun e => matchedCount e x).sum

/-- Number of slots assigned to one employee. -/
def assignedCount (e : Employee) (x : Assignment) : Nat :=
  ((List.range 7).map fun d =>
    (shiftNames.map fun s => if x e.id d s then 1 else 0).sum).sum

/-- Modelled from the spec: the per-worker preference-satisfaction score of
§4.3 — the fraction of the worker's assigned shifts whose category matches
the worker's preferred categories. -/
def specPrefFraction (e : Employee) (x : Assignment) : ℚ :=
  (matchedCount e x : ℚ) / (assignedCount e x : ℚ)

lemma matched_le_assigned (e : Employee) (x : Assignment) :
    matchedCount e x ≤ assignedCount e x := by
  rw [matchedCount, assignedCount]
  apply List.sum_le_sum
  intro d _
  apply List.sum_le_sum
  intro s _
  split
  · exact le_refl _
  · split <;> omega

lemma spec_fraction_le_one (e : Employee) (x : Assignment) :
    specPrefFraction e x ≤ 1 := by
  rw [specPrefFraction]
  rcases Nat.eq_zero_or_pos (assignedCount e x) with h0 | hpos
  · simp [h0]
  · exact div_le_one_of_le₀ (Nat.cast_le.mpr (matched_le_assigned e x))
      (by positivity)

/-- Claim C8, counterexample: on a concrete solved assignment the reported
preference score is the integer 30, while every worker's fraction of
preference-matching assigned shifts is at most 1 — in particular `M1`'s
fraction is 5/15, so the reported score is not that fraction. -/
theorem c8_score_not_fraction_counterexample :
    satisfies goodEmps goodX = true ∧ prefScore goodEmps goodX = 30 ∧
      specPrefFraction eM1 goodX ≠ (prefScore goodEmps goodX : ℚ) := by
  refine ⟨by decide, by decide, ?_⟩
  have hm : matchedCount eM1 goodX = 5 := by decide
  have ha : assignedCount eM1 goodX = 15 := by decide
  have hs : prefScore goodEmps goodX = 30 := by decide
  rw [specPrefFraction, hm, ha, hs]
  norm_num

/-- Claim C8, amended: the reported preference-satisfaction value is the
total count, over all workers, of assigned slots whose shift is among that
worker's preferred shifts — not a fraction; each worker's matched count never
exceeds their assigned count, so the spec's per-worker fraction always lies
in [0, 1] while the reported count is their sum over all workers. -/
theorem c8_pref_score_is_count (emps : List Employee) (x : Assignment) :
    prefScore emps x = (emps.map fun e => matchedCount e x).sum ∧
      ∀ e ∈ emps, matchedCount e x ≤ assignedCount e x ∧
        matchedCount e x ≤ prefScore emps x ∧ specPrefFraction e x ≤ 1 := by
  refine ⟨rfl, fun e he => ?_⟩
  refine ⟨matched_le_assigned e x, ?_, spec_fraction_le_one e x⟩
  rw [prefScore]
  exact List.single_le_sum (fun _ _ => Nat.zero_le _) _
    (List.mem_map_of_mem _ he)

theorem c8_pref_score_is_count_witness :
    matchedCount eS3 goodX ≤ assignedCount eS3 goodX ∧
      matchedCount eS3 goodX ≤ prefScore goodEmps goodX ∧
      specPrefFraction eS3 goodX ≤ 1 :=
  (c8_pref_score_is_count goodEmps goodX).2 eS3 (by decide)

/-- ASCII lowercasing of one character, as `str.lower` acts on the ASCII
schedule texts. -/
def charLower (c : Char) : Char :=
  if 'A' ≤ c ∧ c ≤ 'Z' then Char.ofNat (c.toNat + 32) else c

/-- `conflict_checks` of `labour_scheduler_simple.has_conflicts`
(lines 240-248). -/
def conflict_checks : List String :=
  ["violation", "conflict", "missing coverage", "understaffed", "overworked",
   "constraint not met", "break violation"]

/-- Substring occurrence on character lists (Python's `kw in text`). -/
def hasSub (kw : List Char) : List Char → Bool
  | [] => kw.isEmpty
  | c :: t => kw.isPrefixOf (c :: t) || hasSub kw t

/-- `has_conflicts` (lines 238-254): lowercase the schedule text and report a
conflict iff any of the seven keywords occurs in it. -/
def has_conflicts (scheduleText : String) : Bool :=
  conflict_checks.any fun kw => hasSub kw.toList (scheduleText.toList.map charLower)

/-- Claim C7, counterexample: the code's validity check is purely lexical, so
it is not equivalent to the §3 invariants: the text "No violation found.",
which asserts the absence of violations (and here accompanies a concrete
assignment satisfying every hard constraint), is flagged as conflicted, while
the equivalent wording "No problems found." is not. -/
theorem c7_validator_counterexample :
    has_conflicts "No violation found." = true ∧
      has_conflicts "No problems found." = false ∧
      satisfies goodEmps goodX = true :=
  ⟨by decide, by decide, by decide⟩

/-- Claim C7, amended: the only validity check in the code,
`has_conflicts`, reports a conflict iff one of the seven fixed keywords
occurs as a substring of the lowercased schedule text; its verdict is a
function of the text alone and does not evaluate the §3 invariants. -/
theorem c7_has_conflicts_lexical (t : String) :
    has_conflicts t = false ↔
      ∀ kw ∈ conflict_checks, hasSub kw.toList (t.toList.map charLower) = false := by
  rw [← Bool.not_eq_true, has_conflicts, List.any_eq_true]
  push_neg
  constructor
  · intro h kw hkw
    exact Bool.eq_false_iff.mpr (h kw hkw)
  · intro h kw hkw
    rw [h kw hkw]
    exact Bool.false_ne_true

theorem c7_has_conflicts_lexical_witness :
    has_conflicts "Schedule complete." = false :=
  (c7_has_conflicts_lexical "Schedule complete.").mpr (by decide)

end LabourSched

namespace LabourSched

/-- A row of `employees.csv` as used by `ortools_fallback` in
`labour_scheduler_poc.py`: id, wage and weekly hour cap (from
`data_gen.py`). -/
structure PocEmployee where
  id : String
  wage : Nat
  max_hours : Nat
deriving DecidableEq, Repr

/-- The poc shift names. -/
inductive PocShift where
  | Morning
  | Evening
  | Night
deriving DecidableEq, Repr

/-- The poc shift list. -/
def pocShifts : List PocShift := [PocShift.Morning, PocShift.Evening, PocShift.Night]

/-- All joint values of the per-employee integer hour variables
`NewIntVar(0, max_hours)` (line 89), as lists aligned with the employee
table. -/
def pocChoices : List PocEmployee → List (List Nat)
  | [] => [[]]
  | e :: rest =>
    ((List.range (e.max_hours + 1)).map fun h =>
      (pocChoices rest).map fun t => h :: t).flatten

/-- The coverage constraints of `ortools_fallback` (lines 93-97): for every
shift, the sum of ALL employees' hour variables (the source sums the same
total for each shift) must reach that shift's minimum. -/
def pocFeasible (cov : PocShift → Nat) (hs : List Nat) : Bool :=
  pocShifts.all fun s => decide (cov s ≤ hs.sum)

/-- The minimised objective (lines 99-101): total wage cost. -/
def pocCost (emps : List PocEmployee) (hs : List Nat) : Nat :=
  ((emps.zip hs).map fun p => p.1.wage * p.2).sum

/-- Minimum of a list of naturals. -/
def listMin : List Nat → Option Nat
  | [] => none
  | a :: l =>
    match listMin l with
    | none => some a
    | some b => some (if a ≤ b then a else b)

/-- The optimal value of the fallback model: the least cost over the feasible
joint hour choices, `none` when the model is infeasible. -/
def pocOpt (emps : List PocEmployee) (cov : PocShift → Nat) : Option Nat :=
  listMin (((pocChoices emps).filter (pocFeasible cov)).map (pocCost emps))

lemma listMin_eq_none {l : List Nat} (h : listMin l = none) : l = [] := by
  cases l with
  | nil => rfl
  | cons a l =>
    rw [listMin] at h
    rcases hl : listMin l with _ | b <;> rw [hl] at h <;> cases h

lemma listMin_mem : ∀ {l : List Nat} {v : Nat}, listMin l = some v → v ∈ l := by
  intro l
  induction l with
  | nil => intro v h; cases h
  | cons a l ih =>
    intro v h
    rw [listMin] at h
    rcases hl : listMin l with _ | b <;> rw [hl] at h <;> injection h with h <;>
      subst h
    · exact List.mem_cons_self a l
    · split
      · exact List.mem_cons_self a l
      · exact List.mem_cons_of_mem a (ih hl)

lemma listMin_le : ∀ {l : List Nat} {v : Nat}, listMin l = some v →
    ∀ b ∈ l, v ≤ b := by
  intro l
  induction l with
  | nil => intro v _ b hb; cases hb
  | cons a l ih =>
    intro v h b hb
    rw [listMin] at h
    rcases hl : listMin l with _ | m <;> rw [hl] at h <;> injection h with h <;>
      subst h
    · rcases List.mem_cons.mp hb with rfl | hb'
      · exact le_refl _
      · rw [listMin_eq_none hl] at hb'
        cases hb'
    · rcases List.mem_cons.mp hb with rfl | hb'
      · split <;> omega
      · have hmb := ih hl b hb'
        split <;> omega

lemma listMin_isSome_of_mem {l : List Nat} {a : Nat} (ha : a ∈ l) :
    ∃ v, listMin l = some v := by
  cases hl : listMin l with
  | none =>
    rw [listMin_eq_none hl] at ha
    cases ha
  | some v => exact ⟨v, rfl⟩

/-- Claim C9: in the fallback cost-minimisation model, raising coverage
minimums (pointwise, all else equal) never lowers the optimum: whenever the
tightened model still has an optimal cost, the original model has one too,
and it is no larger. -/
theorem c9_tightening_monotone (emps : List PocEmployee)
    (cov cov' : PocShift → Nat) (hmono : ∀ s, cov s ≤ cov' s) (v' : Nat)
    (hopt : pocOpt emps cov' = some v') :
    ∃ v, pocOpt emps cov = some v ∧ v ≤ v' := by
  have hmem := listMin_mem hopt
  rcases List.mem_map.mp hmem with ⟨hs, hhs, hcost⟩
  rcases List.mem_filter.mp hhs with ⟨hchoice, hfeas'⟩
  have hfeas : pocFeasible cov hs = true := by
    rw [pocFeasible, List.all_eq_true]
    rw [pocFeasible, List.all_eq_true] at hfeas'
    intro s hsmem
    exact decide_eq_true
      (le_trans (hmono s) (of_decide_eq_true (hfeas' s hsmem)))
  have hmemL : pocCost emps hs ∈
      ((pocChoices emps).filter (pocFeasible cov)).map (pocCost emps) :=
    List.mem_map_of_mem _ (List.mem_filter.mpr ⟨hchoice, hfeas⟩)
  rcases listMin_isSome_of_mem hmemL with ⟨v, hv⟩
  refine ⟨v, hv, ?_⟩
  rw [← hcost]
  exact listMin_le hv _ hmemL

/-- Two cheap workers with a 2-hour cap each. -/
def pocE0 : List PocEmployee := [⟨"EMP_000", 10, 2⟩, ⟨"EMP_001", 12, 2⟩]

theorem c9_tightening_monotone_witness :
    ∃ v, pocOpt pocE0 (fun _ => 1) = some v ∧ v ≤ 20 :=
  c9_tightening_monotone pocE0 (fun _ => 1) (fun _ => 2)
    (fun s => by cases s <;> decide) 20 (by decide)

end LabourSched

namespace LabourSched

/-- A Python runtime value, as far as the poc's result comprehension
manipulates them: integers, strings, (index, row) tuples from `iterrows`,
and DataFrame rows as field lists. -/
inductive PyVal where
  | intVal (n : Int)
  | strVal (s : String)
  | tupleVal (a b : PyVal)
  | rowVal (fields : List (String × PyVal))

/-- Python exceptions raised by subscripting. -/
inductive PyErr where
  | typeError
  | keyError
deriving DecidableEq, Repr

/-- Python `v["k"]`: a DataFrame row looks the field up; subscripting a
tuple — or any other non-mapping value — with a string raises `TypeError`. -/
def getItemStr : PyVal → String → Except PyErr PyVal
  | .rowVal fields, k =>
    match fields.find? (fun p => p.1 == k) with
    | some p => Except.ok p.2
    | none => Except.error PyErr.keyError
  | _, _ => Except.error PyErr.typeError

/-- `employees.iterrows()`: yields `(index, row)` tuples. -/
def iterrows (rows : List (List (String × PyVal))) : List PyVal :=
  rows.enum.map fun p => PyVal.tupleVal (.intVal p.1) (.rowVal p.2)

/-- Evaluation of a comprehension body over a list, propagating the first
raised exception. -/
def mapExcept {α β : Type} (f : α → Except PyErr β) : List α → Except PyErr (List β)
  | [] => Except.ok []
  | a :: l =>
    match f a with
    | Except.error err => Except.error err
    | Except.ok b =>
      match mapExcept f l with
      | Except.error err => Except.error err
      | Except.ok bs => Except.ok (b :: bs)

/-- The result comprehension of `ortools_fallback`
(`labour_scheduler_poc.py` lines 105-107): it iterates `employees.iterrows()`
WITHOUT unpacking — `for emp in employees.iterrows()` — so each `emp` is an
(index, row) tuple, and the body evaluates `emp["id"]` before pairing it with
the solver value. -/
def fallbackReturn (rows : List (List (String × PyVal)))
    (solverVal : String → Nat) : Except PyErr (List (String × Nat)) :=
  mapExcept (fun emp =>
    match getItemStr emp "id" with
    | Except.error err => Except.error err
    | Except.ok (PyVal.strVal s) => Except.ok (s, solverVal s)
    | Except.ok _ => Except.error PyErr.typeError) (iterrows rows)

/-- Claim C10: on any non-empty employee table, the return comprehension of
`ortools_fallback` raises `TypeError` — `emp["id"]` subscripts an
(index, row) tuple with a string — before any mapping is returned, whatever
values the solver produced. -/
theorem c10_fallback_return_raises (rows : List (List (String × PyVal)))
    (solverVal : String → Nat) (hne : rows ≠ []) :
    fallbackReturn rows solverVal = Except.error PyErr.typeError := by
  cases rows with
  | nil => exact absurd rfl hne
  | cons r rest => rfl

theorem c10_fallback_return_raises_witness :
    fallbackReturn [[("id", PyVal.strVal "EMP_000"), ("wage", PyVal.intVal 15)]]
      (fun _ => 0) = Except.error PyErr.typeError :=
  c10_fallback_return_raises _ _ (List.cons_ne_nil _ _)

end LabourSched
